import Mathlib

/-!
Verification of the army-simulation module (`main.py`).

The Python module is embedded shallowly: Python's unbounded integers become
`Int`, in-place mutation becomes explicit state passing (each operation
returns the updated `Army`), the `ValueError` raised by the constructor
becomes `Except String Army`, and the boolean return values of
`train_unit` / `transform_unit` become the first component of a
`Bool × Army`.  The Python classes `Pikeman`, `Archer`, `Knight` are
recorded in a `tag` field (the runtime class used by `isinstance`),
alongside the `unit_type` string that the source also stores.
-/

set_option linter.unusedVariables false

namespace ArmySim

/-- The Python class of a unit (`Pikeman`, `Archer` or `Knight`). -/
inductive UnitKind where
  | pikeman
  | archer
  | knight
deriving DecidableEq

/-- Embedding of class `Unit`: `unit_type`, `strength`, `years_of_life`,
`training_cost`, `training_gain`, plus the runtime class in `tag`. -/
structure Unit where
  tag : UnitKind
  unit_type : String
  strength : Int
  years_of_life : Int
  training_cost : Int
  training_gain : Int
deriving DecidableEq

/-- Embedding of `Unit.train`: `self.strength += self.training_gain`. -/
def Unit.train (u : Unit) : Unit :=
  { u with strength := u.strength + u.training_gain }

/-- Constructor `Pikeman()`: strength 5, training cost 10, training gain 3. -/
def mkPikeman : Unit := ⟨UnitKind.pikeman, "pikeman", 5, 0, 10, 3⟩

/-- Constructor `Archer()`: strength 10, training cost 20, training gain 7. -/
def mkArcher : Unit := ⟨UnitKind.archer, "archer", 10, 0, 20, 7⟩

/-- Constructor `Knight()`: strength 20, training cost 30, training gain 10. -/
def mkKnight : Unit := ⟨UnitKind.knight, "knight", 20, 0, 30, 10⟩

/-- One entry of `Army.battle_record` (a Python dict with keys
`opponent`, `our_strength`, `enemy_strength`, `result`). -/
structure BattleRecord where
  opponent : String
  our_strength : Int
  enemy_strength : Int
  result : String
deriving DecidableEq

/-- Embedding of class `Army`. -/
structure Army where
  civilization : String
  gold : Int
  units : List Unit
  battle_record : List BattleRecord
deriving DecidableEq

/-- Python's `str.lower()` (the source only ever compares the result with
ASCII literals): lowercase every character. -/
def pyLower (s : String) : String :=
  ⟨s.data.map Char.toLower⟩

/-- Embedding of `Army.__init__(civilization)`: populates the roster from the preset for
`civilization.lower()`, or raises `ValueError` for an unknown name. -/
def Army.init (civilization : String) : Except String Army :=
  let civilization_lower := pyLower civilization
  if civilization_lower = "chinese" then
    Except.ok { civilization := civilization, gold := 1000,
                units := List.replicate 2 mkPikeman ++ List.replicate 25 mkArcher
                          ++ List.replicate 2 mkKnight,
                battle_record := [] }
  else if civilization_lower = "english" then
    Except.ok { civilization := civilization, gold := 1000,
                units := List.replicate 10 mkPikeman ++ List.replicate 10 mkArcher
                          ++ List.replicate 10 mkKnight,
                battle_record := [] }
  else if civilization_lower = "byzantine" then
    Except.ok { civilization := civilization, gold := 1000,
                units := List.replicate 5 mkPikeman ++ List.replicate 8 mkArcher
                          ++ List.replicate 15 mkKnight,
                battle_record := [] }
  else
    Except.error ("Unknown civilization: " ++ civilization
                  ++ ". Valid options: chinese, english, byzantine")

/-- Embedding of `Army.get_total_strength`: sum of the strengths of all units. -/
def Army.get_total_strength (a : Army) : Int :=
  (a.units.map (fun u => u.strength)).sum

/-- Embedding of `Army.train_unit(unit_index)`: bounds check, then gold check, then
deduct the training cost and train the unit in place. -/
def Army.train_unit (a : Army) (unit_index : Int) : Bool × Army :=
  if h : unit_index < 0 ∨ (a.units.length : Int) ≤ unit_index then
    (false, a)
  else
    let u := a.units.get ⟨unit_index.toNat, by omega⟩
    if u.training_cost ≤ a.gold then
      (true, { a with gold := a.gold - u.training_cost,
                      units := a.units.set unit_index.toNat u.train })
    else
      (false, a)

/-- Embedding of `Army.transform_unit(unit_index, new_type)`: bounds check, then the two
transformation rules (Pikeman→Archer cost 30, Archer→Knight cost 40, each
preserving years of life and the training bonus over the base strength),
then the gold check and in-place replacement. -/
def Army.transform_unit (a : Army) (unit_index : Int) (new_type : String) : Bool × Army :=
  if h : unit_index < 0 ∨ (a.units.length : Int) ≤ unit_index then
    (false, a)
  else
    let current_unit := a.units.get ⟨unit_index.toNat, by omega⟩
    let new_type_lower := pyLower new_type
    let rule : Option (Int × Unit) :=
      if current_unit.tag = UnitKind.pikeman ∧ new_type_lower = "archer" then
        some (30, { mkArcher with years_of_life := current_unit.years_of_life,
                                  strength := 10 + (current_unit.strength - 5) })
      else if current_unit.tag = UnitKind.archer ∧ new_type_lower = "knight" then
        some (40, { mkKnight with years_of_life := current_unit.years_of_life,
                                  strength := 20 + (current_unit.strength - 10) })
      else
        none
    match rule with
    | none => (false, a)
    | some (cost, new_unit) =>
      if cost ≤ a.gold then
        (true, { a with gold := a.gold - cost,
                        units := a.units.set unit_index.toNat new_unit })
      else
        (false, a)

/-- Python's `max(units, key=lambda u: u.strength)` as a left fold: the
accumulator is replaced only when the new strength is strictly greater, so
on ties the earliest unit is kept. -/
def pyMaxBy (acc : Unit) : List Unit → Unit
  | [] => acc
  | x :: xs => pyMaxBy (if x.strength > acc.strength then x else acc) xs

/-- The removal loop of `remove_strongest_units`: `n` times, find the
maximum by strength and `list.remove` it (first occurrence). -/
def removeLoop : Nat → List Unit → List Unit
  | 0, l => l
  | _ + 1, [] => []
  | n + 1, x :: xs => removeLoop n ((x :: xs).erase (pyMaxBy x xs))

/-- Embedding of `Army.remove_strongest_units(count)`: no-op on an empty roster,
otherwise remove `min count (len units)` strongest units iteratively. -/
def Army.remove_strongest_units (a : Army) (count : Int) : Army :=
  if a.units = [] then a
  else
    let units_to_remove := min count (a.units.length : Int)
    { a with units := removeLoop units_to_remove.toNat a.units }

/-- Body of `Army._age_all_units` on a single unit. -/
def ageUnit (u : Unit) : Unit :=
  { u with years_of_life := u.years_of_life + 1 }

/-- Embedding of `Army._age_all_units`: increment `years_of_life` of every unit. -/
def Army.age_all_units (a : Army) : Army :=
  { a with units := a.units.map ageUnit }

/-- Embedding of `Army.attack(other_army)`: returns the result string and the updated
pair (self, other). -/
def Army.attack (a : Army) (other_army : Army) : String × Army × Army :=
  if a.units = [] then ("no_units", a, other_army)
  else if other_army.units = [] then ("no_target", a, other_army)
  else
    let our_strength := a.get_total_strength
    let enemy_strength := other_army.get_total_strength
    let step : Army × Army × String :=
      if our_strength > enemy_strength then
        ({ a with gold := a.gold + 100 }, other_army.remove_strongest_units 2, "victory")
      else if enemy_strength > our_strength then
        (a.remove_strongest_units 2, { other_army with gold := other_army.gold + 100 }, "defeat")
      else
        (a.remove_strongest_units 1, other_army.remove_strongest_units 1, "draw")
    let a1 := step.1.age_all_units
    let b1 := step.2.1.age_all_units
    let result := step.2.2
    let own_record : BattleRecord :=
      ⟨other_army.civilization, our_strength, enemy_strength, result⟩
    let other_record : BattleRecord :=
      ⟨a.civilization, enemy_strength, our_strength,
       if result = "victory" then "defeat"
       else if result = "defeat" then "victory" else "draw"⟩
    (result,
     { a1 with battle_record := a1.battle_record ++ [own_record] },
     { b1 with battle_record := b1.battle_record ++ [other_record] })

/-! ## Spec-side description of the removal policy

The spec describes `remove_strongest_units` as: remove up to `n` units, at
each step removing the first unit in roster order whose current strength is
maximal.  `eraseFirstMax` / `specRemove` transcribe that wording; the
refinement lemmas below prove the source's `max` + `list.remove` loop
implements it. -/

/-- Drop the first unit in roster order whose strength is maximal: the head
is the first maximal unit exactly when no later unit is strictly stronger. -/
def eraseFirstMax : List Unit → List Unit
  | [] => []
  | x :: xs => if ∀ y ∈ xs, y.strength ≤ x.strength then xs else x :: eraseFirstMax xs

/-- Iterate `eraseFirstMax` up to `n` times (stopping early on an empty
roster). -/
def specRemove : Nat → List Unit → List Unit
  | 0, l => l
  | _ + 1, [] => []
  | n + 1, x :: xs => specRemove n (eraseFirstMax (x :: xs))

/-- The two rosters after the battle outcome is applied (gold transfer and
strongest-unit removal) but before the aging step of `attack`. -/
def battleSurvivors (a b : Army) : List Unit × List Unit :=
  if a.get_total_strength > b.get_total_strength then
    (a.units, specRemove 2 b.units)
  else if b.get_total_strength > a.get_total_strength then
    (specRemove 2 a.units, b.units)
  else
    (specRemove 1 a.units, specRemove 1 b.units)

/-- Outcome inversion for the opponent's battle record
(Victory↔Defeat, Draw↔Draw). -/
def mirrorOutcome (r : String) : String :=
  if r = "victory" then "defeat" else if r = "defeat" then "victory" else "draw"

/-- Armies reachable from construction by any sequence of `train_unit`,
`transform_unit` and `attack` calls (as attacker or as target). -/
inductive Reach : Army → Prop where
  | init : ∀ (s : String) (a : Army), Army.init s = Except.ok a → Reach a
  | train : ∀ (a : Army) (i : Int), Reach a → Reach (a.train_unit i).2
  | transform : ∀ (a : Army) (i : Int) (t : String), Reach a → Reach (a.transform_unit i t).2
  | attacker : ∀ (a b : Army), Reach a → Reach (a.attack b).2.1
  | defender : ∀ (a b : Army), Reach b → Reach (a.attack b).2.2

/-- A one-pikeman army used to instantiate the general theorems. -/
def soloArmy : Army := ⟨"solo", 1000, [mkPikeman], []⟩

/-- A one-knight army used to instantiate the general theorems. -/
def knightArmy : Army := ⟨"knights", 1000, [mkKnight], []⟩

/-- An army with an empty roster. -/
def emptyArmy : Army := ⟨"empty", 1000, [], []⟩

/-- The army produced by `Army.init "chinese"`. -/
def chineseArmy : Army :=
  ⟨"chinese", 1000,
   List.replicate 2 mkPikeman ++ List.replicate 25 mkArcher ++ List.replicate 2 mkKnight,
   []⟩

theorem le_strength_pyMaxBy (acc : Unit) (xs : List Unit) :
    acc.strength ≤ (pyMaxBy acc xs).strength := by
  induction xs generalizing acc with
  | nil => simp [pyMaxBy]
  | cons y ys ih =>
    simp only [pyMaxBy]
    by_cases h : y.strength > acc.strength
    · rw [if_pos h]
      exact le_trans (le_of_lt h) (ih y)
    · rw [if_neg h]
      exact ih acc

theorem mem_le_pyMaxBy (acc : Unit) (xs : List Unit) :
    ∀ y ∈ xs, y.strength ≤ (pyMaxBy acc xs).strength := by
  induction xs generalizing acc with
  | nil => simp
  | cons z zs ih =>
    intro y hy
    simp only [pyMaxBy]
    rcases List.mem_cons.mp hy with rfl | hy
    · by_cases h : y.strength > acc.strength
      · rw [if_pos h]
        exact le_strength_pyMaxBy y zs
      · rw [if_neg h]
        exact le_trans (not_lt.mp h) (le_strength_pyMaxBy acc zs)
    · by_cases h : z.strength > acc.strength
      · rw [if_pos h]
        exact ih z y hy
      · rw [if_neg h]
        exact ih acc y hy

theorem pyMaxBy_eq_of_all_le (acc : Unit) (xs : List Unit)
    (h : ∀ y ∈ xs, y.strength ≤ acc.strength) : pyMaxBy acc xs = acc := by
  induction xs generalizing acc with
  | nil => rfl
  | cons z zs ih =>
    simp only [pyMaxBy]
    rw [if_neg (not_lt.mpr (h z (List.mem_cons_self z zs)))]
    exact ih acc fun y hy => h y (List.mem_cons_of_mem z hy)

theorem lt_strength_pyMaxBy (acc : Unit) (xs : List Unit)
    (h : ∃ y ∈ xs, acc.strength < y.strength) :
    acc.strength < (pyMaxBy acc xs).strength := by
  obtain ⟨y, hy, hlt⟩ := h
  exact lt_of_lt_of_le hlt (mem_le_pyMaxBy acc xs y hy)

/-- Python's `units.remove(max(units, key=...))` drops exactly the first
unit of maximal strength. -/
theorem erase_pyMaxBy (x : Unit) (xs : List Unit) :
    (x :: xs).erase (pyMaxBy x xs) = eraseFirstMax (x :: xs) := by
  induction xs generalizing x with
  | nil => simp [pyMaxBy, eraseFirstMax]
  | cons y ys ih =>
    by_cases hall : ∀ z ∈ y :: ys, z.strength ≤ x.strength
    · rw [pyMaxBy_eq_of_all_le x (y :: ys) hall, List.erase_cons_head,
        eraseFirstMax, if_pos hall]
    · have hex : ∃ z ∈ y :: ys, x.strength < z.strength := by
        push_neg at hall
        exact hall
      have hm : x.strength < (pyMaxBy x (y :: ys)).strength :=
        lt_strength_pyMaxBy x (y :: ys) hex
      have hne : (x == pyMaxBy x (y :: ys))= false := by
        rw [beq_eq_false_iff_ne]
        intro hcontra
        rw [← hcontra] at hm
        omega
      rw [List.erase_cons, hne, if_neg (by simp), eraseFirstMax, if_neg hall]
      congr 1
      by_cases hxy : x.strength < y.strength
      · have hstep : pyMaxBy x (y :: ys) = pyMaxBy y ys := by
          simp only [pyMaxBy]
          rw [if_pos hxy]
        rw [hstep]
        exact ih y
      · have hstep : pyMaxBy x (y :: ys) = pyMaxBy x ys := by
          simp only [pyMaxBy]
          rw [if_neg hxy]
        rw [hstep] at hm ⊢
        have hzs : ∃ z ∈ ys, x.strength < z.strength := by
          by_contra hcon
          push_neg at hcon
          rw [pyMaxBy_eq_of_all_le x ys hcon] at hm
          omega
      -- from the induction hypothesis at `x :: ys`, peel the unchanged head
        have hx_ne : (x == pyMaxBy x ys) = false := by
          rw [beq_eq_false_iff_ne]
          intro hcontra
          rw [← hcontra] at hm
          omega
        have htail : ys.erase (pyMaxBy x ys) = eraseFirstMax ys := by
          have h1 := ih x
          rw [List.erase_cons, hx_ne, if_neg (by simp), eraseFirstMax,
            if_neg (by push_neg; exact hzs)] at h1
          exact List.tail_eq_of_cons_eq h1
        have hy_ne : (y == pyMaxBy x ys) = false := by
          rw [beq_eq_false_iff_ne]
          intro hcontra
          have : y.strength ≤ x.strength := not_lt.mp hxy
          rw [← hcontra] at hm
          omega
        rw [List.erase_cons, hy_ne, if_neg (by simp), eraseFirstMax]
        rw [if_neg (by
          push_neg
          obtain ⟨z, hz, hzlt⟩ := hzs
          exact ⟨z, hz, lt_of_le_of_lt (not_lt.mp hxy) hzlt⟩)]
        rw [htail]

theorem removeLoop_eq_specRemove : ∀ (n : Nat) (l : List Unit),
    removeLoop n l = specRemove n l := by
  intro n
  induction n with
  | zero => intro l; rfl
  | succ n ih =>
    intro l
    cases l with
    | nil => rfl
    | cons x xs =>
      simp only [removeLoop, specRemove]
      rw [erase_pyMaxBy]
      exact ih _

theorem length_eraseFirstMax (x : Unit) (xs : List Unit) :
    (eraseFirstMax (x :: xs)).length = xs.length := by
  induction xs generalizing x with
  | nil => simp [eraseFirstMax]
  | cons y ys ih =>
    have h2 := ih y
    simp only [eraseFirstMax] at h2 ⊢
    split
    · rfl
    · simp [h2]

theorem specRemove_min (n : Nat) : ∀ l : List Unit,
    specRemove (min n l.length) l = specRemove n l := by
  induction n with
  | zero => intro l; simp
  | succ n ih =>
    intro l
    cases l with
    | nil => cases hmin : min (n + 1) ([] : List Unit).length <;> rfl
    | cons x xs =>
      have h1 : min (n + 1) (x :: xs).length = (min n xs.length) + 1 := by
        simp only [List.length_cons]
        omega
      rw [h1]
      simp only [specRemove]
      rw [← length_eraseFirstMax x xs]
      exact ih _

theorem remove_strongest_gold (a : Army) (c : Int) :
    (a.remove_strongest_units c).gold = a.gold := by
  unfold Army.remove_strongest_units
  split <;> rfl

theorem remove_strongest_civ (a : Army) (c : Int) :
    (a.remove_strongest_units c).civilization = a.civilization := by
  unfold Army.remove_strongest_units
  split <;> rfl

theorem remove_strongest_record (a : Army) (c : Int) :
    (a.remove_strongest_units c).battle_record = a.battle_record := by
  unfold Army.remove_strongest_units
  split <;> rfl

/-- On a non-empty roster, `remove_strongest_units c` (for `0 ≤ c`) computes
exactly the spec's iterative first-maximum removal. -/
theorem remove_strongest_units_eq (a : Army) (c : Int) (hc : 0 ≤ c)
    (h : a.units ≠ []) :
    (a.remove_strongest_units c).units = specRemove c.toNat a.units := by
  unfold Army.remove_strongest_units
  rw [if_neg h]
  show removeLoop (min c (a.units.length : Int)).toNat a.units = _
  rw [removeLoop_eq_specRemove]
  have hmin : (min c (a.units.length : Int)).toNat = min c.toNat a.units.length := by
    omega
  rw [hmin, specRemove_min]

/-- Full description of `attack` when both rosters are non-empty: gold
transfer, iterative strongest-unit removal, aging of the survivors, and the
two mirrored battle records. -/
theorem attack_eq (a b : Army) (ha : a.units ≠ []) (hb : b.units ≠ []) :
    a.attack b =
      (if a.get_total_strength > b.get_total_strength then
        ("victory",
         { civilization := a.civilization, gold := a.gold + 100,
           units := a.units.map ageUnit,
           battle_record := a.battle_record ++
             [⟨b.civilization, a.get_total_strength, b.get_total_strength, "victory"⟩] },
         { civilization := b.civilization, gold := b.gold,
           units := (specRemove 2 b.units).map ageUnit,
           battle_record := b.battle_record ++
             [⟨a.civilization, b.get_total_strength, a.get_total_strength, "defeat"⟩] })
      else if b.get_total_strength > a.get_total_strength then
        ("defeat",
         { civilization := a.civilization, gold := a.gold,
           units := (specRemove 2 a.units).map ageUnit,
           battle_record := a.battle_record ++
             [⟨b.civilization, a.get_total_strength, b.get_total_strength, "defeat"⟩] },
         { civilization := b.civilization, gold := b.gold + 100,
           units := b.units.map ageUnit,
           battle_record := b.battle_record ++
             [⟨a.civilization, b.get_total_strength, a.get_total_strength, "victory"⟩] })
      else
        ("draw",
         { civilization := a.civilization, gold := a.gold,
           units := (specRemove 1 a.units).map ageUnit,
           battle_record := a.battle_record ++
             [⟨b.civilization, a.get_total_strength, b.get_total_strength, "draw"⟩] },
         { civilization := b.civilization, gold := b.gold,
           units := (specRemove 1 b.units).map ageUnit,
           battle_record := b.battle_record ++
             [⟨a.civilization, b.get_total_strength, a.get_total_strength, "draw"⟩] })) := by
  have ha2 := remove_strongest_units_eq a 2 (by norm_num) ha
  have hb2 := remove_strongest_units_eq b 2 (by norm_num) hb
  have ha1 := remove_strongest_units_eq a 1 (by norm_num) ha
  have hb1 := remove_strongest_units_eq b 1 (by norm_num) hb
  simp only [Army.attack, if_neg ha, if_neg hb]
  split_ifs with h1 h2 <;>
    simp_all [Army.age_all_units,
      remove_strongest_gold, remove_strongest_civ, remove_strongest_record]

/-- C5: `attack` on an army with an empty roster returns the sentinel
`no_units`; on a non-empty army against an empty opponent it returns
`no_target`; in both cases both armies are returned unchanged (no field of
either changes). -/
theorem c5_attack_empty_sentinels (a b : Army) :
    (a.units = [] → a.attack b = ("no_units", a, b)) ∧
    (a.units ≠ [] → b.units = [] → a.attack b = ("no_target", a, b)) := by
  constructor
  · intro h
    simp [Army.attack, h]
  · intro ha hbe
    simp [Army.attack, ha, hbe]

theorem c5_attack_empty_sentinels_witness :
    emptyArmy.attack soloArmy = ("no_units", emptyArmy, soloArmy) ∧
    soloArmy.attack emptyArmy = ("no_target", soloArmy, emptyArmy) :=
  ⟨(c5_attack_empty_sentinels emptyArmy soloArmy).1 rfl,
   (c5_attack_empty_sentinels soloArmy emptyArmy).2 (by decide) rfl⟩

/-- C2: any name whose lowercasing is `chinese` / `english` / `byzantine`
constructs an army with gold 1000, empty battle history, and the preset
roster in the fixed order pikemen, archers, knights; roster size and total
strength match the preset table (Chinese 29/300, English 30/350,
Byzantine 28/405). -/
theorem c2_init_presets (s : String) :
    (pyLower s = "chinese" →
      ∃ ar, Army.init s = Except.ok ar ∧ ar.civilization = s ∧ ar.gold = 1000 ∧
        ar.battle_record = [] ∧
        ar.units = List.replicate 2 mkPikeman ++ List.replicate 25 mkArcher
                    ++ List.replicate 2 mkKnight ∧
        ar.units.length = 29 ∧ ar.get_total_strength = 300) ∧
    (pyLower s = "english" →
      ∃ ar, Army.init s = Except.ok ar ∧ ar.civilization = s ∧ ar.gold = 1000 ∧
        ar.battle_record = [] ∧
        ar.units = List.replicate 10 mkPikeman ++ List.replicate 10 mkArcher
                    ++ List.replicate 10 mkKnight ∧
        ar.units.length = 30 ∧ ar.get_total_strength = 350) ∧
    (pyLower s = "byzantine" →
      ∃ ar, Army.init s = Except.ok ar ∧ ar.civilization = s ∧ ar.gold = 1000 ∧
        ar.battle_record = [] ∧
        ar.units = List.replicate 5 mkPikeman ++ List.replicate 8 mkArcher
                    ++ List.replicate 15 mkKnight ∧
        ar.units.length = 28 ∧ ar.get_total_strength = 405) := by
  refine ⟨fun h => ?_, fun h => ?_, fun h => ?_⟩
  · have hred : Army.init s = Except.ok
        { civilization := s, gold := 1000,
          units := List.replicate 2 mkPikeman ++ List.replicate 25 mkArcher
                    ++ List.replicate 2 mkKnight,
          battle_record := [] } := by
      simp [Army.init, h]
    exact ⟨_, hred, rfl, rfl, rfl, rfl, rfl, rfl⟩
  · have hred : Army.init s = Except.ok
        { civilization := s, gold := 1000,
          units := List.replicate 10 mkPikeman ++ List.replicate 10 mkArcher
                    ++ List.replicate 10 mkKnight,
          battle_record := [] } := by
      simp [Army.init, h]
    exact ⟨_, hred, rfl, rfl, rfl, rfl, rfl, rfl⟩
  · have hred : Army.init s = Except.ok
        { civilization := s, gold := 1000,
          units := List.replicate 5 mkPikeman ++ List.replicate 8 mkArcher
                    ++ List.replicate 15 mkKnight,
          battle_record := [] } := by
      simp [Army.init, h]
    exact ⟨_, hred, rfl, rfl, rfl, rfl, rfl, rfl⟩

theorem c2_init_presets_witness :
    ∃ ar, Army.init "Chinese" = Except.ok ar ∧ ar.civilization = "Chinese" ∧
      ar.gold = 1000 ∧ ar.battle_record = [] ∧
      ar.units = List.replicate 2 mkPikeman ++ List.replicate 25 mkArcher
                  ++ List.replicate 2 mkKnight ∧
      ar.units.length = 29 ∧ ar.get_total_strength = 300 :=
  (c2_init_presets "Chinese").1 (by decide)

/-- C9: construction fails with the unknown-civilization error for every
name that does not case-insensitively match one of the three presets, and
raises no error for the three preset names. -/
theorem c9_unknown_civilization (s : String) :
    (pyLower s ≠ "chinese" → pyLower s ≠ "english" → pyLower s ≠ "byzantine" →
      ∃ msg, Army.init s = Except.error msg) ∧
    (∃ a1, Army.init "chinese" = Except.ok a1) ∧
    (∃ a2, Army.init "english" = Except.ok a2) ∧
    (∃ a3, Army.init "byzantine" = Except.ok a3) := by
  refine ⟨fun h1 h2 h3 => ?_, ⟨_, rfl⟩, ⟨_, rfl⟩, ⟨_, rfl⟩⟩
  exact ⟨"Unknown civilization: " ++ s ++ ". Valid options: chinese, english, byzantine",
    by simp [Army.init, h1, h2, h3]⟩

theorem c9_unknown_civilization_witness :
    ∃ msg, Army.init "Roman" = Except.error msg :=
  (c9_unknown_civilization "Roman").1 (by decide) (by decide) (by decide)

/-- C8: chained transformation preserves the accumulated training bonus:
a pikeman trained to strength 11 becomes an archer of strength 16 and then
a knight of strength 26, with gold sufficient at each step. -/
theorem c8_chained_transform :
    ((⟨"test", 1000, [{ mkPikeman with strength := 11 }], []⟩ : Army).transform_unit 0 "archer").1
        = true ∧
    ((⟨"test", 1000, [{ mkPikeman with strength := 11 }], []⟩ : Army).transform_unit 0 "archer").2.units
        = [{ mkArcher with strength := 16 }] ∧
    (((⟨"test", 1000, [{ mkPikeman with strength := 11 }], []⟩ : Army).transform_unit 0 "archer").2.transform_unit 0 "knight").1
        = true ∧
    (((⟨"test", 1000, [{ mkPikeman with strength := 11 }], []⟩ : Army).transform_unit 0 "archer").2.transform_unit 0 "knight").2.units
        = [{ mkKnight with strength := 26 }] := by
  decide

/-- C1: in a battle between two non-empty armies, the strictly stronger
side gains exactly 100 gold and the weaker side loses its 2 strongest
units; on equal strength no gold moves and each side loses its single
strongest unit.  The removed units are given by `specRemove`, the spec's
iterative policy (repeatedly drop the first unit in roster order whose
current strength is maximal, up to `n` of them); the survivors are
subsequently aged by `attack` (claim C6), hence the `map ageUnit`. -/
theorem c1_attack_outcome (a b : Army) (ha : a.units ≠ []) (hb : b.units ≠ []) :
    (a.get_total_strength > b.get_total_strength →
      (a.attack b).2.1.gold = a.gold + 100 ∧
      (a.attack b).2.2.gold = b.gold ∧
      (a.attack b).2.2.units = (specRemove 2 b.units).map ageUnit ∧
      (a.attack b).2.1.units = a.units.map ageUnit) ∧
    (b.get_total_strength > a.get_total_strength →
      (a.attack b).2.2.gold = b.gold + 100 ∧
      (a.attack b).2.1.gold = a.gold ∧
      (a.attack b).2.1.units = (specRemove 2 a.units).map ageUnit ∧
      (a.attack b).2.2.units = b.units.map ageUnit) ∧
    (a.get_total_strength = b.get_total_strength →
      (a.attack b).2.1.gold = a.gold ∧
      (a.attack b).2.2.gold = b.gold ∧
      (a.attack b).2.1.units = (specRemove 1 a.units).map ageUnit ∧
      (a.attack b).2.2.units = (specRemove 1 b.units).map ageUnit) := by
  rw [attack_eq a b ha hb]
  refine ⟨fun h => ?_, fun h => ?_, fun h => ?_⟩
  · rw [if_pos h]
    exact ⟨rfl, rfl, rfl, rfl⟩
  · rw [if_neg (by omega), if_pos h]
    exact ⟨rfl, rfl, rfl, rfl⟩
  · rw [if_neg (by omega), if_neg (by omega)]
    exact ⟨rfl, rfl, rfl, rfl⟩

theorem c1_attack_outcome_witness :
    (knightArmy.attack soloArmy).2.1.gold = knightArmy.gold + 100 ∧
    (knightArmy.attack soloArmy).2.2.gold = soloArmy.gold ∧
    (knightArmy.attack soloArmy).2.2.units = (specRemove 2 soloArmy.units).map ageUnit ∧
    (knightArmy.attack soloArmy).2.1.units = knightArmy.units.map ageUnit :=
  (c1_attack_outcome knightArmy soloArmy (by decide) (by decide)).1 (by decide)

/-- C6: after a battle between two non-empty armies, every surviving unit
of both rosters is aged by exactly one year (`ageUnit` changes nothing but
`years_of_life`), and the units removed by the outcome are not aged: the
final rosters are the post-outcome survivors mapped through `ageUnit`. -/
theorem c6_aging_survivors (a b : Army) (ha : a.units ≠ []) (hb : b.units ≠ []) :
    (a.attack b).2.1.units = (battleSurvivors a b).1.map ageUnit ∧
    (a.attack b).2.2.units = (battleSurvivors a b).2.map ageUnit ∧
    ∀ u : Unit, ageUnit u = { u with years_of_life := u.years_of_life + 1 } := by
  rw [attack_eq a b ha hb]
  unfold battleSurvivors
  rcases lt_trichotomy a.get_total_strength b.get_total_strength with h | h | h
  · rw [if_neg (by omega), if_pos (by omega), if_neg (by omega), if_pos (by omega)]
    exact ⟨rfl, rfl, fun u => rfl⟩
  · rw [if_neg (by omega), if_neg (by omega), if_neg (by omega), if_neg (by omega)]
    exact ⟨rfl, rfl, fun u => rfl⟩
  · rw [if_pos (by omega), if_pos (by omega)]
    exact ⟨rfl, rfl, fun u => rfl⟩

theorem c6_aging_survivors_witness :
    (knightArmy.attack soloArmy).2.1.units = (battleSurvivors knightArmy soloArmy).1.map ageUnit ∧
    (knightArmy.attack soloArmy).2.2.units = (battleSurvivors knightArmy soloArmy).2.map ageUnit :=
  ⟨(c6_aging_survivors knightArmy soloArmy (by decide) (by decide)).1,
   (c6_aging_survivors knightArmy soloArmy (by decide) (by decide)).2.1⟩

/-- C7: a battle between two non-empty armies appends exactly one record to
each history (all earlier entries untouched): for self the opponent's name,
the two pre-battle strength snapshots and the outcome; for the opponent the
mirrored record with the snapshots swapped and the outcome inverted
(Victory↔Defeat, Draw↔Draw). -/
theorem c7_battle_records (a b : Army) (ha : a.units ≠ []) (hb : b.units ≠ []) :
    (a.attack b).2.1.battle_record =
      a.battle_record ++
        [⟨b.civilization, a.get_total_strength, b.get_total_strength, (a.attack b).1⟩] ∧
    (a.attack b).2.2.battle_record =
      b.battle_record ++
        [⟨a.civilization, b.get_total_strength, a.get_total_strength,
          mirrorOutcome (a.attack b).1⟩] := by
  rw [attack_eq a b ha hb]
  rcases lt_trichotomy a.get_total_strength b.get_total_strength with h | h | h
  · rw [if_neg (by omega), if_pos (by omega)]
    exact ⟨rfl, by simp [mirrorOutcome]⟩
  · rw [if_neg (by omega), if_neg (by omega)]
    exact ⟨rfl, by simp [mirrorOutcome]⟩
  · rw [if_pos (by omega)]
    exact ⟨rfl, by simp [mirrorOutcome]⟩

theorem c7_battle_records_witness :
    (knightArmy.attack soloArmy).2.1.battle_record =
      knightArmy.battle_record ++
        [⟨soloArmy.civilization, knightArmy.get_total_strength, soloArmy.get_total_strength,
          (knightArmy.attack soloArmy).1⟩] ∧
    (knightArmy.attack soloArmy).2.2.battle_record =
      soloArmy.battle_record ++
        [⟨knightArmy.civilization, soloArmy.get_total_strength, knightArmy.get_total_strength,
          mirrorOutcome (knightArmy.attack soloArmy).1⟩] :=
  c7_battle_records knightArmy soloArmy (by decide) (by decide)

/-- C3: `train_unit i` succeeds exactly when `i` is in bounds and gold
covers the indexed unit's training cost; on success that unit's strength
grows by exactly its `training_gain` and gold drops by exactly its
`training_cost` (everything else unchanged); on failure the army is
returned unchanged. -/
theorem c3_train_unit_spec (a : Army) (i : Int) :
    ((a.train_unit i).1 = true ↔
      0 ≤ i ∧ i < (a.units.length : Int) ∧
      ∃ u, a.units[i.toNat]? = some u ∧ u.training_cost ≤ a.gold) ∧
    ((a.train_unit i).1 = true →
      ∃ u, a.units[i.toNat]? = some u ∧
        (a.train_unit i).2.gold = a.gold - u.training_cost ∧
        (a.train_unit i).2.units
          = a.units.set i.toNat { u with strength := u.strength + u.training_gain } ∧
        (a.train_unit i).2.civilization = a.civilization ∧
        (a.train_unit i).2.battle_record = a.battle_record) ∧
    ((a.train_unit i).1 = false → (a.train_unit i).2 = a) := by
  by_cases hb : i < 0 ∨ (a.units.length : Int) ≤ i
  · have hred : a.train_unit i = (false, a) := by
      unfold Army.train_unit
      rw [dif_pos hb]
    rw [hred]
    refine ⟨⟨fun hf => absurd hf (by simp), ?_⟩, fun hf => absurd hf (by simp), fun _ => rfl⟩
    rintro ⟨h1, h2, -⟩
    exact absurd hb (by omega)
  · have h0 : 0 ≤ i := by omega
    have h1 : i < (a.units.length : Int) := by omega
    have hlt : i.toNat < a.units.length := by omega
    have hget : a.units[i.toNat]? = some (a.units.get ⟨i.toNat, hlt⟩) := by
      rw [List.getElem?_eq_getElem hlt, List.get_eq_getElem]
    by_cases hg : (a.units.get ⟨i.toNat, hlt⟩).training_cost ≤ a.gold
    · have hred : a.train_unit i =
          (true, { a with
            gold := a.gold - (a.units.get ⟨i.toNat, hlt⟩).training_cost,
            units := a.units.set i.toNat (a.units.get ⟨i.toNat, hlt⟩).train }) := by
        unfold Army.train_unit
        rw [dif_neg hb]
        dsimp only
        rw [if_pos hg]
      rw [hred]
      refine ⟨⟨fun _ => ⟨h0, h1, _, hget, hg⟩, fun _ => rfl⟩,
        fun _ => ⟨_, hget, rfl, rfl, rfl, rfl⟩, fun hf => absurd hf (by simp)⟩
    · have hred : a.train_unit i = (false, a) := by
        unfold Army.train_unit
        rw [dif_neg hb]
        dsimp only
        rw [if_neg hg]
      rw [hred]
      refine ⟨⟨fun hf => absurd hf (by simp), ?_⟩, fun hf => absurd hf (by simp), fun _ => rfl⟩
      rintro ⟨-, -, u, hu, hcost⟩
      rw [hget] at hu
      injection hu with he
      rw [he] at hg
      exact absurd hcost hg

theorem c3_train_unit_spec_witness :
    (soloArmy.train_unit 0).1 = true ∧
    (soloArmy.train_unit 0).2.gold = soloArmy.gold - mkPikeman.training_cost :=
  ⟨(c3_train_unit_spec soloArmy 0).1.mpr ⟨by decide, by decide, mkPikeman, by decide, by decide⟩,
   by
    obtain ⟨u, hu, hgold, -⟩ := (c3_train_unit_spec soloArmy 0).2.1 (by decide)
    have : u = mkPikeman := by
      have h2 : soloArmy.units[(0 : Int).toNat]? = some mkPikeman := by decide
      rw [h2] at hu
      injection hu with he
      exact he.symm
    rw [hgold, this]⟩

/-- C4: `transform_unit` succeeds only along the edges Pikeman→Archer
(cost 30) and Archer→Knight (cost 40) with sufficient gold; on success it
deducts the cost and replaces the unit at the same index by a unit of the
target type whose strength is the target base strength plus the old unit's
bonus over its own base strength and whose `years_of_life` carries over;
every other case (out of bounds, disallowed edge — including
Knight→anything, same-type, Pikeman→Knight — or insufficient gold) fails
with no mutation. -/
theorem c4_transform_unit_spec (a : Army) (i : Int) (t : String) :
    ((a.transform_unit i t).1 = true ↔
      0 ≤ i ∧ i < (a.units.length : Int) ∧
      ∃ u, a.units[i.toNat]? = some u ∧
        ((u.tag = UnitKind.pikeman ∧ pyLower t = "archer" ∧ (30 : Int) ≤ a.gold) ∨
         (u.tag = UnitKind.archer ∧ pyLower t = "knight" ∧ (40 : Int) ≤ a.gold))) ∧
    ((a.transform_unit i t).1 = true →
      ∃ u, a.units[i.toNat]? = some u ∧
        ((u.tag = UnitKind.pikeman ∧ pyLower t = "archer" ∧
          (a.transform_unit i t).2.gold = a.gold - 30 ∧
          (a.transform_unit i t).2.units = a.units.set i.toNat
            { mkArcher with years_of_life := u.years_of_life,
                            strength := 10 + (u.strength - 5) }) ∨
         (u.tag = UnitKind.archer ∧ pyLower t = "knight" ∧
          (a.transform_unit i t).2.gold = a.gold - 40 ∧
          (a.transform_unit i t).2.units = a.units.set i.toNat
            { mkKnight with years_of_life := u.years_of_life,
                            strength := 20 + (u.strength - 10) }))) ∧
    ((a.transform_unit i t).1 = false → (a.transform_unit i t).2 = a) := by
  by_cases hb : i < 0 ∨ (a.units.length : Int) ≤ i
  · have hred : a.transform_unit i t = (false, a) := by
      unfold Army.transform_unit
      rw [dif_pos hb]
    rw [hred]
    refine ⟨⟨fun hf => absurd hf (by simp), ?_⟩, fun hf => absurd hf (by simp), fun _ => rfl⟩
    rintro ⟨h1, h2, -⟩
    exact absurd hb (by omega)
  · have h0 : 0 ≤ i := by omega
    have h1 : i < (a.units.length : Int) := by omega
    have hlt : i.toNat < a.units.length := by omega
    have hget : a.units[i.toNat]? = some (a.units.get ⟨i.toNat, hlt⟩) := by
      rw [List.getElem?_eq_getElem hlt, List.get_eq_getElem]
    by_cases hP : (a.units.get ⟨i.toNat, hlt⟩).tag = UnitKind.pikeman ∧ pyLower t = "archer"
    · by_cases hg : (30 : Int) ≤ a.gold
      · have hred : a.transform_unit i t =
            (true, { a with
              gold := a.gold - 30,
              units := a.units.set i.toNat
                { mkArcher with
                  years_of_life := (a.units.get ⟨i.toNat, hlt⟩).years_of_life,
                  strength := 10 + ((a.units.get ⟨i.toNat, hlt⟩).strength - 5) } }) := by
          unfold Army.transform_unit
          rw [dif_neg hb]
          dsimp only
          rw [if_pos hP]
          dsimp only
          rw [if_pos hg]
        rw [hred]
        exact ⟨⟨fun _ => ⟨h0, h1, _, hget, Or.inl ⟨hP.1, hP.2, hg⟩⟩, fun _ => rfl⟩,
          fun _ => ⟨_, hget, Or.inl ⟨hP.1, hP.2, rfl, rfl⟩⟩, fun hf => absurd hf (by simp)⟩
      · have hred : a.transform_unit i t = (false, a) := by
          unfold Army.transform_unit
          rw [dif_neg hb]
          dsimp only
          rw [if_pos hP]
          dsimp only
          rw [if_neg hg]
        rw [hred]
        refine ⟨⟨fun hf => absurd hf (by simp), ?_⟩, fun hf => absurd hf (by simp), fun _ => rfl⟩
        rintro ⟨-, -, u, hu, hor⟩
        rw [hget] at hu
        injection hu with he
        rcases hor with ⟨-, -, hg30⟩ | ⟨htag, -, -⟩
        · exact absurd hg30 hg
        · rw [← he, hP.1] at htag
          exact absurd htag (by simp)
    · by_cases hQ : (a.units.get ⟨i.toNat, hlt⟩).tag = UnitKind.archer ∧ pyLower t = "knight"
      · by_cases hg : (40 : Int) ≤ a.gold
        · have hred : a.transform_unit i t =
              (true, { a with
                gold := a.gold - 40,
                units := a.units.set i.toNat
                  { mkKnight with
                    years_of_life := (a.units.get ⟨i.toNat, hlt⟩).years_of_life,
                    strength := 20 + ((a.units.get ⟨i.toNat, hlt⟩).strength - 10) } }) := by
            unfold Army.transform_unit
            rw [dif_neg hb]
            dsimp only
            rw [if_neg hP, if_pos hQ]
            dsimp only
            rw [if_pos hg]
          rw [hred]
          exact ⟨⟨fun _ => ⟨h0, h1, _, hget, Or.inr ⟨hQ.1, hQ.2, hg⟩⟩, fun _ => rfl⟩,
            fun _ => ⟨_, hget, Or.inr ⟨hQ.1, hQ.2, rfl, rfl⟩⟩, fun hf => absurd hf (by simp)⟩
        · have hred : a.transform_unit i t = (false, a) := by
            unfold Army.transform_unit
            rw [dif_neg hb]
            dsimp only
            rw [if_neg hP, if_pos hQ]
            dsimp only
            rw [if_neg hg]
          rw [hred]
          refine ⟨⟨fun hf => absurd hf (by simp), ?_⟩, fun hf => absurd hf (by simp), fun _ => rfl⟩
          rintro ⟨-, -, u, hu, hor⟩
          rw [hget] at hu
          injection hu with he
          rcases hor with ⟨htag, -, -⟩ | ⟨-, -, hg40⟩
          · rw [← he, hQ.1] at htag
            exact absurd htag (by simp)
          · exact absurd hg40 hg
      · have hred : a.transform_unit i t = (false, a) := by
          unfold Army.transform_unit
          rw [dif_neg hb]
          dsimp only
          rw [if_neg hP, if_neg hQ]
        rw [hred]
        refine ⟨⟨fun hf => absurd hf (by simp), ?_⟩, fun hf => absurd hf (by simp), fun _ => rfl⟩
        rintro ⟨-, -, u, hu, hor⟩
        rw [hget] at hu
        injection hu with he
        rcases hor with ⟨htag, htl, -⟩ | ⟨htag, htl, -⟩
        · rw [← he] at htag
          exact absurd ⟨htag, htl⟩ hP
        · rw [← he] at htag
          exact absurd ⟨htag, htl⟩ hQ

theorem c4_transform_unit_spec_witness :
    (soloArmy.transform_unit 0 "archer").1 = true ∧
    (soloArmy.transform_unit 0 "knight").1 = false ∧
    (soloArmy.transform_unit 0 "knight").2 = soloArmy :=
  ⟨(c4_transform_unit_spec soloArmy 0 "archer").1.mpr
      ⟨by decide, by decide, mkPikeman, by decide, Or.inl ⟨by decide, by decide, by decide⟩⟩,
   by decide,
   (c4_transform_unit_spec soloArmy 0 "knight").2.2 (by decide)⟩

theorem init_gold (s : String) (a : Army) (h : Army.init s = Except.ok a) :
    a.gold = 1000 := by
  unfold Army.init at h
  dsimp only at h
  split_ifs at h <;> (injection h with h2; rw [← h2])

/-- Lemma: `train_unit` either leaves gold unchanged or deducts a cost it first
checked to be affordable. -/
theorem train_unit_gold_cases (a : Army) (i : Int) :
    (a.train_unit i).2.gold = a.gold ∨
    ∃ c, (a.train_unit i).2.gold = a.gold - c ∧ c ≤ a.gold := by
  unfold Army.train_unit
  split
  · exact Or.inl rfl
  · dsimp only
    split
    · rename_i hc
      exact Or.inr ⟨_, rfl, hc⟩
    · exact Or.inl rfl

/-- Lemma: `transform_unit` either leaves gold unchanged or deducts a cost it
first checked to be affordable. -/
theorem transform_unit_gold_cases (a : Army) (i : Int) (t : String) :
    (a.transform_unit i t).2.gold = a.gold ∨
    ∃ c, (a.transform_unit i t).2.gold = a.gold - c ∧ c ≤ a.gold := by
  unfold Army.transform_unit
  split
  · exact Or.inl rfl
  · dsimp only
    split
    · exact Or.inl rfl
    · split
      · rename_i hc
        exact Or.inr ⟨_, rfl, hc⟩
      · exact Or.inl rfl

/-- In `attack`, the attacker's gold never decreases. -/
theorem attack_gold_attacker (a b : Army) :
    (a.attack b).2.1.gold = a.gold ∨ (a.attack b).2.1.gold = a.gold + 100 := by
  unfold Army.attack
  split
  · exact Or.inl rfl
  · split
    · exact Or.inl rfl
    · dsimp only
      split_ifs with h1 h2 <;>
        simp [Army.age_all_units, remove_strongest_gold]

/-- In `attack`, the defender's gold never decreases. -/
theorem attack_gold_defender (a b : Army) :
    (a.attack b).2.2.gold = b.gold ∨ (a.attack b).2.2.gold = b.gold + 100 := by
  unfold Army.attack
  split
  · exact Or.inl rfl
  · split
    · exact Or.inl rfl
    · dsimp only
      split_ifs with h1 h2 <;>
        simp [Army.age_all_units, remove_strongest_gold]

/-- C10: every army reachable from construction through any sequence of
`train_unit`, `transform_unit` and `attack` operations keeps `gold ≥ 0`:
construction sets gold to 1000, deductions happen only after an
affordability check succeeds, and battles only ever add gold. -/
theorem c10_gold_nonneg (a : Army) (h : Reach a) : 0 ≤ a.gold := by
  induction h with
  | init s a0 h0 =>
    rw [init_gold s a0 h0]
    norm_num
  | train a0 i h0 ih =>
    rcases train_unit_gold_cases a0 i with h1 | ⟨c, h1, h2⟩ <;> omega
  | transform a0 i t h0 ih =>
    rcases transform_unit_gold_cases a0 i t with h1 | ⟨c, h1, h2⟩ <;> omega
  | attacker a0 b h0 ih =>
    rcases attack_gold_attacker a0 b with h1 | h1 <;> omega
  | defender a0 b h0 ih =>
    rcases attack_gold_defender a0 b with h1 | h1 <;> omega

theorem c10_gold_nonneg_witness : 0 ≤ chineseArmy.gold :=
  c10_gold_nonneg chineseArmy (Reach.init "chinese" chineseArmy rfl)

end ArmySim
